import Mathlib

set_option maxHeartbeats 1000000

/-!
Verification development for the solana-multiswap instruction-orchestration
pipeline.  The pipeline steps (NormalizeRoutesStep, WrapSolStep, SwapStep,
AssembleInstructionsStep, ResolveAltStep, FinalizeTxStep) are embedded
shallowly: public keys, mints and program identifiers are base58 strings,
instruction payloads are byte lists, amounts are integers (BigInt in the
source), and user-facing amounts are exact rationals standing in for the
floating-point numbers of the source.  External calls (decimals, balances,
quote fetches, lookup-table resolution, serialization) are passed in as
explicit function parameters.
-/

namespace MultiSwap

/-- Side tag of a route (types.ts: type Side = "buy" | "sell"; the field is
optional on MultiRouteInput, a missing side is treated as buy by the code). -/
inductive Side
  | buy
  | sell
deriving DecidableEq

/-- One requested swap (types.ts, MultiRouteInput).  The source keeps the
base-unit amount as a decimal string and converts with BigInt; we model it as
an integer.  The user-facing amount is a JS number; we model it as an exact
rational. -/
structure MultiRouteInput where
  inputMint : String
  outputMint : String
  amount : Option Int
  uiAmount : Option ℚ
  slippageBps : Nat
  side : Option Side
deriving DecidableEq

/-- Native SOL mint (buildMultiSwapTxV0.ts, const SOL). -/
def SOL : String := "So11111111111111111111111111111111111111112"

/-- USDC mint used for the dummy wrap quote (buildMultiSwapTxV0.ts, const USDC). -/
def USDC : String := "EPjFWdd5AufqSSqeM2qN1xzybapC8G4wEGGkZwyTDt1v"

/-- Floor of a rational as an integer, computed with integer floor division
(the denominator of a normalized rational is positive). -/
def ratFloor (q : ℚ) : Int := Int.fdiv q.num (Int.ofNat q.den)

/-- amounts.ts, uiToBaseUnits: BigInt(Math.floor(n * 10 ** decimals)).
The source computes with binary floating point; we model the same expression
over exact rationals. -/
def uiToBaseUnits (ui : ℚ) (decimals : Nat) : Int :=
  ratFloor (ui * (10 : ℚ) ^ decimals)

/-- amounts.ts, solToLamports: uiToBaseUnits with 9 decimals. -/
def solToLamports (sol : ℚ) : Int := uiToBaseUnits sol 9

/-- Read-only ledger queries used by normalization
(NormalizeRoutesStep.run: conn.getTokenSupply for decimals,
conn.getTokenAccountsByOwner + getTokenAccountBalance for the balance,
which collapses to 0 when no token account exists). -/
structure Ledger where
  decimalsOf : String → Nat
  balanceOf : String → String → Int

/-- Error raised by route normalization
(NormalizeRoutesStep.run: throw new Error with the order index). -/
inductive NormError
  | missingAmount (idx : Nat)
deriving DecidableEq

/-- NormalizeRoutesStep.run, body of the per-route map (SwapStep.ts lines
68-102).  Branch order follows the source: sell with uiAmount and no amount is
converted and clamped to the on-chain balance; a non-sell route paying in
native SOL with uiAmount is converted to lamports; a present amount passes
through; otherwise the route is rejected with its index. -/
def normalizeRoute (led : Ledger) (user : String) (idx : Nat)
    (r : MultiRouteInput) : Except NormError MultiRouteInput :=
  match r.uiAmount, r.amount with
  | some ui, none =>
    if r.side = some Side.sell then
      let dec := led.decimalsOf r.inputMint
      let base := uiToBaseUnits ui dec
      let bal := led.balanceOf user r.inputMint
      let safe := if base > bal then bal else base
      .ok { r with amount := some safe }
    else if r.inputMint = SOL then
      .ok { r with amount := some (solToLamports ui) }
    else
      .error (.missingAmount idx)
  | _, some _ => .ok r
  | none, none => .error (.missingAmount idx)

/-- Sequential traversal of the routes carrying the index.  The source maps
the routes inside Promise.all; the only rejections of this stage are thrown
synchronously, so the first rejection in array order settles the join, which
this sequential traversal reproduces. -/
def normalizeRoutesAux (led : Ledger) (user : String) :
    Nat → List MultiRouteInput → Except NormError (List MultiRouteInput)
  | _, [] => .ok []
  | idx, r :: rest =>
    match normalizeRoute led user idx r with
    | .error e => .error e
    | .ok r' =>
      match normalizeRoutesAux led user (idx + 1) rest with
      | .error e => .error e
      | .ok rest' => .ok (r' :: rest')

/-- NormalizeRoutesStep.run over the whole route list. -/
def normalizeRoutes (led : Ledger) (user : String)
    (routes : List MultiRouteInput) : Except NormError (List MultiRouteInput) :=
  normalizeRoutesAux led user 0 routes

/-- A route reaches one of the three success branches of normalizeRoute. -/
def routeResolvable (r : MultiRouteInput) : Bool :=
  r.amount.isSome ||
    (r.uiAmount.isSome &&
      (decide (r.side = some Side.sell) || decide (r.inputMint = SOL)))

theorem normalizeRoute_of_not_resolvable (led : Ledger) (user : String)
    (idx : Nat) (r : MultiRouteInput) (h : routeResolvable r = false) :
    normalizeRoute led user idx r = .error (.missingAmount idx) := by
  unfold routeResolvable at h
  unfold normalizeRoute
  rcases hui : r.uiAmount with _ | ui <;> rcases ha : r.amount with _ | a <;>
    simp [hui, ha] at h ⊢
  · rw [if_neg h.1, if_neg h.2]

theorem normalizeRoute_of_resolvable (led : Ledger) (user : String)
    (idx : Nat) (r : MultiRouteInput) (h : routeResolvable r = true) :
    ∃ r', normalizeRoute led user idx r = .ok r' := by
  unfold routeResolvable at h
  unfold normalizeRoute
  rcases hui : r.uiAmount with _ | ui <;> rcases ha : r.amount with _ | a <;>
    simp [hui, ha] at h ⊢
  rcases h with h | h
  · simp [h]
  · by_cases hs : r.side = some Side.sell <;> simp [hs, h]

/-- One account reference of an instruction (pubkey in base58 plus the signer
and writable flags), as produced by toIx (utils/pk.ts). -/
structure AccountMeta where
  pubkey : String
  isSigner : Bool
  isWritable : Bool
deriving DecidableEq

/-- A TransactionInstruction after toIx: program id (base58), ordered account
list, opaque payload bytes. -/
structure Ix where
  programId : String
  keys : List AccountMeta
  data : List Nat
deriving DecidableEq

/-- The swap-instructions payload returned by the provider for one route
(jupiter.schemas.ts, SwapIxs).  Optional lists of the schema are modeled as
plain lists (absent collapses to empty, which the source treats identically
through the ?.length guards and ?? [] defaults). -/
structure SwapIxs where
  tokenLedgerInstruction : Option Ix
  computeBudgetInstructions : List Ix
  setupInstructions : List Ix
  swapInstruction : Option Ix
  otherInstructions : List Ix
  addressLookupTableAddresses : List String
deriving DecidableEq

/-- Per-route payload accumulated by SwapStep.run: original route index plus
the fetched instruction set. -/
structure Payload where
  i : Nat
  ixs : SwapIxs
deriving DecidableEq

/-- The error code the pipeline recognizes as a missing route
(SwapStep.ts line 31). -/
def NO_ROUTE_CODE : String := "COULD_NOT_FIND_ANY_ROUTE"

/-- An error thrown by a quote or swap-instructions fetch.  isJupiterApiError
models the instanceof JupiterApiError test; errorCode and message are the
fields read by SwapStep.run. -/
structure FetchError where
  isJupiterApiError : Bool
  errorCode : Option String
  message : String
deriving DecidableEq

/-- The test guarding the skip branch of SwapStep.run:
e instanceof JupiterApiError and e.errorCode == COULD_NOT_FIND_ANY_ROUTE. -/
def isNoRouteErr (e : FetchError) : Bool :=
  e.isJupiterApiError && decide (e.errorCode = some NO_ROUTE_CODE)

/-- Policy when the provider cannot find a route (onRouteNotFound). -/
inductive Policy
  | skip
  | fail
deriving DecidableEq

/-- One skipped-route record (index, reason, code), as pushed by SwapStep. -/
structure SkipRec where
  index : Nat
  reason : String
  code : Option String
deriving DecidableEq

/-- SwapStep.run issues the per-route fetches concurrently and the callbacks
push onto shared arrays, so the arrays grow in completion order.  We model
the run by an explicit completion order: a list of route indices, processed
sequentially.  For each index the combined quote plus swap-instructions fetch
either yields a SwapIxs or throws a FetchError; a no-route error under skip
policy appends a SkipRec, every other error rejects the join. -/
def swapStepProcess (outcomes : Nat → Except FetchError SwapIxs)
    (policy : Policy) :
    List Nat → List Payload × List SkipRec →
    Except FetchError (List Payload × List SkipRec)
  | [], acc => .ok acc
  | i :: rest, (pls, sks) =>
    match outcomes i with
    | .ok ixs => swapStepProcess outcomes policy rest (pls ++ [⟨i, ixs⟩], sks)
    | .error e =>
      if isNoRouteErr e && decide (policy = .skip) then
        swapStepProcess outcomes policy rest
          (pls, sks ++ [⟨i, e.message, e.errorCode⟩])
      else .error e

/-- SwapStep.run errors: a rethrown fetch error, or the final
"No executable route" error (carrying the skipped indices that the source
interpolates into the message). -/
inductive SwapStepError
  | fetch (e : FetchError)
  | noExecutableRoute (skippedIndices : List Nat)
deriving DecidableEq

/-- SwapStep.run: process every route in completion order, then fail when no
payload was produced (SwapStep.ts lines 42-48). -/
def SwapStep_run (outcomes : Nat → Except FetchError SwapIxs)
    (policy : Policy) (order : List Nat) :
    Except SwapStepError (List Payload × List SkipRec) :=
  match swapStepProcess outcomes policy order ([], []) with
  | .error e => .error (.fetch e)
  | .ok (pls, sks) =>
    if pls.length = 0 then .error (.noExecutableRoute (sks.map (·.index)))
    else .ok (pls, sks)

/-- True when processing this outcome rejects the join under the given
policy: any error except a no-route error under skip policy. -/
def abortOutcome (o : Except FetchError SwapIxs) (policy : Policy) : Bool :=
  match o with
  | .ok _ => false
  | .error e => !(isNoRouteErr e && decide (policy = .skip))

/-- The amount actually sent to the provider for a normalized route; the
source reads Number(r.amount) after normalization guarantees presence. -/
def amountOf (r : MultiRouteInput) : Int := (r.amount).getD 0

/-- A route counted by the wrap planner: not a sell and paid in native SOL
(WrapSolStep.run line 10, r.side !== "sell" && r.inputMint === SOL). -/
def isWrapRoute (r : MultiRouteInput) : Bool :=
  !(decide (r.side = some Side.sell)) && decide (r.inputMint = SOL)

/-- WrapSolStep.run lines 9-11: total lamports to wrap, a reduce over the
filtered routes. -/
def wrapTotalLamports (routes : List MultiRouteInput) : Int :=
  (routes.filter isWrapRoute).foldl (fun sum r => sum + amountOf r) 0

/-- The swap-instructions response of the single dummy SOL to USDC fetch:
only the setup and cleanup fragments are consumed. -/
structure WrapFetchResult where
  setupInstructions : List Ix
  cleanupInstruction : Option Ix

/-- Output of WrapSolStep.run: the diagnostics total, the number of
quote-plus-instructions fetches issued, and the wrap and cleanup
instructions (ctx.wrapInstrs starts empty and ctx.cleanupInstr starts none;
they are only assigned inside the positive branch). -/
structure WrapSolOutput where
  wrappedLamports : Int
  wrapFetches : Nat
  wrapInstrs : List Ix
  cleanupInstr : Option Ix
deriving DecidableEq

/-- WrapSolStep.run.  The fetch parameter stands for the chained getQuote and
getSwapInstructions calls of the provider, keyed by the requested amount. -/
def WrapSolStep_run (routes : List MultiRouteInput)
    (fetch : Int → WrapFetchResult) : WrapSolOutput :=
  let totalLamports := wrapTotalLamports routes
  if totalLamports > 0 then
    let swapIxs := fetch totalLamports
    { wrappedLamports := totalLamports
      wrapFetches := 1
      wrapInstrs :=
        if swapIxs.setupInstructions.length ≠ 0 then swapIxs.setupInstructions
        else []
      cleanupInstr := swapIxs.cleanupInstruction }
  else
    { wrappedLamports := totalLamports
      wrapFetches := 0
      wrapInstrs := []
      cleanupInstr := none }

/-- Associated-token program id (ResolveAltStep.ts line 49). -/
def ATA_PROGRAM : String := "ATokenGPvbdGVxr1b2hvZbsiqW5xWH25efTNsLJA8knL"

/-- Compute-budget program id (the program of
ComputeBudgetProgram.setComputeUnitLimit). -/
def CB_PROGRAM : String := "ComputeBudget111111111111111111111111111111"

/-- The deduplication key computed by pushIfUnique.  The source keeps two
string Sets: seenATAs with keys owner|mint (keys[2] and keys[3], undefined
when absent) and seenGeneric with keys
programId|pubkey-...-pubkey|base64(data).  Over base58 and base64 alphabets
those encodings are injective, so the key is modeled structurally; the two
constructors keep the two Sets disjoint exactly as in the source. -/
inductive DKey
  | ata (owner : Option String) (mint : Option String)
  | gen (programId : String) (pubkeys : List String) (data : List Nat)
deriving DecidableEq

/-- The key pushIfUnique derives for an instruction
(ResolveAltStep.ts lines 48-64). -/
def dkey (ix : Ix) : DKey :=
  if ix.programId = ATA_PROGRAM then
    .ata ((ix.keys.get? 2).map AccountMeta.pubkey)
      ((ix.keys.get? 3).map AccountMeta.pubkey)
  else
    .gen ix.programId (ix.keys.map AccountMeta.pubkey) ix.data

/-- Accumulator of AssembleInstructionsStep.run: the output list ixs plus the
seen keys (union of the seenATAs and seenGeneric Sets, kept disjoint by the
DKey constructors). -/
structure AsmState where
  ixs : List Ix
  seen : List DKey
deriving DecidableEq

/-- AssembleInstructionsStep pushIfUnique (ResolveAltStep.ts lines 48-69):
push unless the dedup key was already seen. -/
def pushIfUnique (st : AsmState) (ix : Ix) : AsmState :=
  if dkey ix ∈ st.seen then st
  else { ixs := st.ixs ++ [ix], seen := dkey ix :: st.seen }

/-- Filter of the compute-budget fragments by first occurrence of the
(programId, data) key (ResolveAltStep.ts lines 94-100, the seenCB Set). -/
def dedupeCBAux : List (String × List Nat) → List Ix → List Ix
  | _, [] => []
  | seenCB, ix :: rest =>
    if (ix.programId, ix.data) ∈ seenCB then dedupeCBAux seenCB rest
    else ix :: dedupeCBAux ((ix.programId, ix.data) :: seenCB) rest

/-- Deduplicated compute-budget instructions (filteredCB in the source). -/
def dedupeCB (l : List Ix) : List Ix := dedupeCBAux [] l

/-- ComputeBudgetProgram.setComputeUnitLimit with units = 1_000_000:
discriminator byte 2 followed by the little-endian 32-bit unit count
(ResolveAltStep.ts line 105). -/
def defaultComputeUnitLimitIx : Ix :=
  { programId := CB_PROGRAM, keys := [], data := [2, 64, 66, 15, 0] }

/-- Inputs of AssembleInstructionsStep.run taken from the context filled by
the earlier steps. -/
structure AsmInput where
  wrapInstrs : List Ix
  cleanupInstr : Option Ix
  swapPayloads : List Payload
deriving DecidableEq

/-- Token-ledger instruction of the first payload carrying one
(ResolveAltStep.ts lines 81-82). -/
def tokenLedgerOf (payloads : List Payload) : Option Ix :=
  (payloads.find? (fun x => x.ixs.tokenLedgerInstruction.isSome)).bind
    (fun x => x.ixs.tokenLedgerInstruction)

/-- All compute-budget fragments across payloads, in payload order
(ResolveAltStep.ts lines 90-92; toIx is the identity in this model since
instructions are already decoded). -/
def collectCB (payloads : List Payload) : List Ix :=
  payloads.flatMap (fun x => x.ixs.computeBudgetInstructions)

/-- Stage 1: wrap instructions, each pushed if not already present. -/
def asmAfterWrap (inp : AsmInput) : AsmState :=
  inp.wrapInstrs.foldl pushIfUnique ⟨[], []⟩

/-- Stage 2: optional token-ledger instruction. -/
def asmAfterLedger (inp : AsmInput) : AsmState :=
  match tokenLedgerOf inp.swapPayloads with
  | some ix => pushIfUnique (asmAfterWrap inp) ix
  | none => asmAfterWrap inp

/-- Stage 3: deduplicated compute-budget instructions capped at two, or the
synthesized default unit-limit instruction when none exist. -/
def asmAfterCB (inp : AsmInput) : AsmState :=
  let filteredCB := dedupeCB (collectCB inp.swapPayloads)
  if filteredCB.length > 0 then
    (filteredCB.take 2).foldl pushIfUnique (asmAfterLedger inp)
  else
    pushIfUnique (asmAfterLedger inp) defaultComputeUnitLimitIx

/-- Stage 4: setup instructions of every payload, in payload order. -/
def asmAfterSetup (inp : AsmInput) : AsmState :=
  inp.swapPayloads.foldl
    (fun st x => x.ixs.setupInstructions.foldl pushIfUnique st)
    (asmAfterCB inp)

/-- Stage 5: the swap instruction of every payload, in payload order. -/
def asmAfterSwap (inp : AsmInput) : AsmState :=
  inp.swapPayloads.foldl
    (fun st x =>
      match x.ixs.swapInstruction with
      | some ix => pushIfUnique st ix
      | none => st)
    (asmAfterSetup inp)

/-- Stage 6: other instructions of every payload, in payload order. -/
def asmAfterOther (inp : AsmInput) : AsmState :=
  inp.swapPayloads.foldl
    (fun st x => x.ixs.otherInstructions.foldl pushIfUnique st)
    (asmAfterSwap inp)

/-- Stage 7: the cleanup instruction, if present, last. -/
def asmFinal (inp : AsmInput) : AsmState :=
  match inp.cleanupInstr with
  | some c => pushIfUnique (asmAfterOther inp) c
  | none => asmAfterOther inp

/-- AssembleInstructionsStep.run: the optimized instruction list saved into
the context. -/
def assembleRun (inp : AsmInput) : List Ix := (asmFinal inp).ixs

/-- First-occurrence deduplication of a string list, the behavior of
Array.from(new Set(list)) whose iteration follows insertion order
(ResolveAltStep.ts lines 10-12). -/
def dedupFirstAux : List String → List String → List String
  | _, [] => []
  | seen, a :: rest =>
    if a ∈ seen then dedupFirstAux seen rest
    else a :: dedupFirstAux (a :: seen) rest

/-- Array.from(new Set(...)). -/
def dedupFirst (l : List String) : List String := dedupFirstAux [] l

/-- ResolveAltStep.run lines 10-12: the deduplicated union of the
lookup-table addresses referenced by the payloads. -/
def collectAltAddrs (payloads : List Payload) : List String :=
  dedupFirst (payloads.flatMap (fun x => x.ixs.addressLookupTableAddresses))

/-- The raw number of lookup-table addresses across payloads before any
deduplication. -/
def rawAltTotal (payloads : List Payload) : Nat :=
  (payloads.flatMap (fun x => x.ixs.addressLookupTableAddresses)).length

/-- A resolved AddressLookupTableAccount; only the key (table address) is
read by the pipeline (FinalizeTxStep reads a.key.toBase58()). -/
structure AltAccount where
  key : String
deriving DecidableEq

/-- ResolveAltStep.run lines 14-18: resolve every collected address and drop
the failures (the .filter(Boolean)).  resolve models
conn.getAddressLookupTable. -/
def ResolveAltStep_run (payloads : List Payload)
    (resolve : String → Option AltAccount) : List AltAccount :=
  (collectAltAddrs payloads).filterMap resolve

/-- FinalizeTxStep ALT fusion (part of the unnamed pipeline sources, lines
17-27): keep the first account per key. -/
def mergeAltsAux : List String → List AltAccount → List AltAccount
  | _, [] => []
  | seen, a :: rest =>
    if a.key ∈ seen then mergeAltsAux seen rest
    else a :: mergeAltsAux (a.key :: seen) rest

/-- FinalizeTxStep mergedAlts. -/
def mergeAlts (raw : List AltAccount) : List AltAccount := mergeAltsAux [] raw

/-- Solana packet size limit in bytes (FinalizeTxStep, MAX_TX_SIZE). -/
def MAX_TX_SIZE : Nat := 1232

/-- FinalizeTxStep failure: the transaction-too-large error carrying the
observed size (-1 when serialization itself threw) and the limit. -/
inductive FinalizeError
  | txTooLarge (size : Int) (limit : Nat)
deriving DecidableEq

/-- Diagnostics of the finished build (FinalizeTxStep ctx.result). -/
structure FinalDiagnostics where
  skipped : List SkipRec
  executedCount : Nat
  requestedCount : Nat
  wrappedLamports : Int
  altBefore : Nat
  altAfter : Nat
  altSaved : Nat
  txSize : Int
  overLimit : Bool
deriving DecidableEq

/-- BuildResult as far as this model observes it: the serialized bytes (the
base64 field encodes exactly these) and the diagnostics. -/
structure BuildResultM where
  serializedBytes : List Nat
  diagnostics : FinalDiagnostics
deriving DecidableEq

/-- FinalizeTxStep.run.  serialize models compileToV0Message followed by
VersionedTransaction.serialize: it receives the instruction list and the
merged lookup tables and yields the wire bytes, or none when serialization
throws (the catch branch setting size = -1). -/
def FinalizeTxStep_run (instructions : List Ix) (rawAlts : List AltAccount)
    (skipped : List SkipRec) (executedCount requestedCount : Nat)
    (wrappedLamports : Int)
    (serialize : List Ix → List AltAccount → Option (List Nat)) :
    Except FinalizeError BuildResultM :=
  let beforeCount := rawAlts.length
  let mergedAlts := mergeAlts rawAlts
  let afterCount := mergedAlts.length
  let ser := serialize instructions mergedAlts
  let size : Int := match ser with
    | some bytes => (bytes.length : Int)
    | none => -1
  if size > (MAX_TX_SIZE : Int) ∨ size = -1 then
    .error (.txTooLarge size MAX_TX_SIZE)
  else
    .ok { serializedBytes := ser.getD []
          diagnostics :=
            { skipped := skipped
              executedCount := executedCount
              requestedCount := requestedCount
              wrappedLamports := wrappedLamports
              altBefore := beforeCount
              altAfter := afterCount
              altSaved := beforeCount - afterCount
              txSize := size
              overLimit := false } }

/-- Claim C6: for every sell route that provides only a user-facing decimal
amount, the normalized base-unit amount never exceeds the queried on-chain
balance of the input asset; when the converted amount exceeds the balance,
the balance is used instead, otherwise the converted amount is kept. -/
theorem c6_sell_clamp (led : Ledger) (user : String) (idx : Nat)
    (r : MultiRouteInput) (ui : ℚ)
    (hside : r.side = some Side.sell) (hui : r.uiAmount = some ui)
    (hamt : r.amount = none) :
    ∃ a, normalizeRoute led user idx r = .ok { r with amount := some a } ∧
      a ≤ led.balanceOf user r.inputMint ∧
      (uiToBaseUnits ui (led.decimalsOf r.inputMint) >
          led.balanceOf user r.inputMint →
        a = led.balanceOf user r.inputMint) ∧
      (uiToBaseUnits ui (led.decimalsOf r.inputMint) ≤
          led.balanceOf user r.inputMint →
        a = uiToBaseUnits ui (led.decimalsOf r.inputMint)) := by
  refine ⟨if led.balanceOf user r.inputMint <
      uiToBaseUnits ui (led.decimalsOf r.inputMint) then
        led.balanceOf user r.inputMint
      else uiToBaseUnits ui (led.decimalsOf r.inputMint), ?_, ?_, ?_, ?_⟩
  · unfold normalizeRoute
    rw [hui, hamt]
    simp [hside]
  · by_cases h : led.balanceOf user r.inputMint <
        uiToBaseUnits ui (led.decimalsOf r.inputMint)
    · rw [if_pos h]
    · rw [if_neg h]
      exact le_of_not_lt h
  · intro h
    rw [if_pos h]
  · intro h
    rw [if_neg (not_lt.mpr h)]

/-- Witness for c6_sell_clamp: a sell route with uiAmount 5 on a 0-decimal
mint against an on-chain balance of 3 normalizes to amount 3. -/
theorem c6_sell_clamp_witness :
    normalizeRoute ⟨fun _ => 0, fun _ _ => 3⟩ "user" 0
      ⟨"MINT", "OUT", none, some 5, 50, some Side.sell⟩ =
    .ok ⟨"MINT", "OUT", some 3, some 5, 50, some Side.sell⟩ := by
  obtain ⟨a, hok, _, hgt, _⟩ :=
    c6_sell_clamp ⟨fun _ => 0, fun _ _ => 3⟩ "user" 0
      ⟨"MINT", "OUT", none, some 5, 50, some Side.sell⟩ 5 rfl rfl rfl
  have h5 : uiToBaseUnits 5 0 = 5 := by
    simp only [uiToBaseUnits, pow_zero, mul_one, ratFloor]
    decide
  rw [hgt (by rw [h5]; decide)] at hok
  exact hok

theorem normalizeRoutesAux_error_of_first (led : Ledger) (user : String)
    (r : MultiRouteInput) (hr : routeResolvable r = false) :
    ∀ (pre post : List MultiRouteInput) (idx : Nat),
      (∀ p ∈ pre, routeResolvable p = true) →
      normalizeRoutesAux led user idx (pre ++ r :: post) =
        .error (.missingAmount (idx + pre.length)) := by
  intro pre
  induction pre with
  | nil =>
    intro post idx _
    simp only [List.nil_append, normalizeRoutesAux,
      normalizeRoute_of_not_resolvable led user idx r hr, List.length_nil,
      Nat.add_zero]
  | cons p pre ih =>
    intro post idx hpre
    obtain ⟨p', hp'⟩ := normalizeRoute_of_resolvable led user idx p
      (hpre p (by simp))
    simp only [List.cons_append, normalizeRoutesAux, hp', List.append_eq]
    rw [ih post (idx + 1) (fun q hq => hpre q (by simp [hq]))]
    simp [Nat.add_assoc, Nat.add_comm 1 pre.length]

theorem normalizeRoutesAux_error_of_mem (led : Ledger) (user : String)
    (r : MultiRouteInput) (hr : routeResolvable r = false) :
    ∀ (l : List MultiRouteInput) (idx : Nat), r ∈ l →
      ∃ j, normalizeRoutesAux led user idx l = .error (.missingAmount j) := by
  intro l
  induction l with
  | nil => intro idx h; exact absurd h (List.not_mem_nil r)
  | cons a rest ih =>
    intro idx hmem
    rcases List.mem_cons.mp hmem with hEq | hRest
    · subst hEq
      refine ⟨idx, ?_⟩
      simp only [normalizeRoutesAux,
        normalizeRoute_of_not_resolvable led user idx r hr]
    · cases ha : normalizeRoute led user idx a with
      | error e =>
        cases e with
        | missingAmount j => exact ⟨j, by simp only [normalizeRoutesAux, ha]⟩
      | ok a' =>
        obtain ⟨j, hj⟩ := ih (idx + 1) hRest
        refine ⟨j, ?_⟩
        simp only [normalizeRoutesAux, ha, hj]

/-- Claim C9: a list of routes containing a route with neither an explicit
base-unit amount nor a user-facing amount makes normalization fail with a
MissingAmount error, so the pipeline aborts and no build result is produced;
when every route before it normalizes, the error names exactly the index of
the offending route. -/
theorem c9_missing_amount (led : Ledger) (user : String)
    (pre post : List MultiRouteInput) (r : MultiRouteInput)
    (hamt : r.amount = none) (hui : r.uiAmount = none) :
    (∃ j, normalizeRoutes led user (pre ++ r :: post) =
      .error (.missingAmount j)) ∧
    ((∀ p ∈ pre, routeResolvable p = true) →
      normalizeRoutes led user (pre ++ r :: post) =
        .error (.missingAmount pre.length)) := by
  have hr : routeResolvable r = false := by
    unfold routeResolvable
    rw [hamt, hui]
    rfl
  constructor
  · exact normalizeRoutesAux_error_of_mem led user r hr (pre ++ r :: post) 0
      (by simp)
  · intro hpre
    have := normalizeRoutesAux_error_of_first led user r hr pre post 0 hpre
    simpa [normalizeRoutes] using this

/-- Witness for c9_missing_amount: after one well-formed route, a route with
neither amount nor uiAmount aborts normalization naming index 1. -/
theorem c9_missing_amount_witness :
    normalizeRoutes ⟨fun _ => 0, fun _ _ => 3⟩ "user"
      [⟨"A", "B", some 7, none, 50, some Side.buy⟩,
       ⟨"C", "D", none, none, 50, some Side.buy⟩] =
    .error (.missingAmount 1) := by
  have h := (c9_missing_amount ⟨fun _ => 0, fun _ _ => 3⟩ "user"
    [⟨"A", "B", some 7, none, 50, some Side.buy⟩] []
    ⟨"C", "D", none, none, 50, some Side.buy⟩ rfl rfl).2 (by decide)
  simpa using h

/-- The payload produced for index i, when its fetch succeeds. -/
def succPart (outcomes : Nat → Except FetchError SwapIxs) (i : Nat) :
    Option Payload :=
  match outcomes i with
  | .ok ixs => some ⟨i, ixs⟩
  | .error _ => none

/-- The skip record produced for index i, when its fetch fails. -/
def skipPart (outcomes : Nat → Except FetchError SwapIxs) (i : Nat) :
    Option SkipRec :=
  match outcomes i with
  | .ok _ => none
  | .error e => some ⟨i, e.message, e.errorCode⟩

/-- Whether the fetch for an index succeeded. -/
def outcomeOk (o : Except FetchError SwapIxs) : Bool :=
  match o with
  | .ok _ => true
  | .error _ => false

theorem swapStepProcess_ok_of_no_abort
    (outcomes : Nat → Except FetchError SwapIxs) (policy : Policy) :
    ∀ (order : List Nat) (pls : List Payload) (sks : List SkipRec),
      (∀ i ∈ order, abortOutcome (outcomes i) policy = false) →
      swapStepProcess outcomes policy order (pls, sks) =
        .ok (pls ++ order.filterMap (succPart outcomes),
             sks ++ order.filterMap (skipPart outcomes)) := by
  intro order
  induction order with
  | nil => intro pls sks _; simp [swapStepProcess]
  | cons i rest ih =>
    intro pls sks h
    have hi := h i (by simp)
    have hrest : ∀ j ∈ rest, abortOutcome (outcomes j) policy = false :=
      fun j hj => h j (by simp [hj])
    cases ho : outcomes i with
    | ok ixs =>
      simp only [swapStepProcess, ho]
      rw [ih (pls ++ [Payload.mk i ixs]) sks hrest]
      simp [List.filterMap_cons, succPart, skipPart, ho]
    | error e =>
      rw [ho] at hi
      simp only [abortOutcome] at hi
      have hcond : (isNoRouteErr e && decide (policy = .skip)) = true := by
        cases hc : (isNoRouteErr e && decide (policy = .skip)) with
        | true => rfl
        | false => rw [hc] at hi; simp at hi
      simp only [swapStepProcess, ho, hcond, if_true]
      rw [ih pls (sks ++ [SkipRec.mk i e.message e.errorCode]) hrest]
      simp [List.filterMap_cons, succPart, skipPart, ho]

theorem swapStepProcess_error_precise
    (outcomes : Nat → Except FetchError SwapIxs) (policy : Policy) :
    ∀ (order : List Nat) (acc : List Payload × List SkipRec) (i : Nat)
      (e : FetchError),
      i ∈ order → outcomes i = .error e →
      abortOutcome (outcomes i) policy = true →
      (∀ j ∈ order, j ≠ i → abortOutcome (outcomes j) policy = false) →
      swapStepProcess outcomes policy order acc = .error e := by
  intro order
  induction order with
  | nil => intro acc i e hi; exact absurd hi (List.not_mem_nil i)
  | cons j rest ih =>
    intro acc i e hi he habort hothers
    obtain ⟨pls, sks⟩ := acc
    by_cases hji : j = i
    · subst hji
      rw [he] at habort
      simp only [abortOutcome] at habort
      have hcond : (isNoRouteErr e && decide (policy = .skip)) = false := by
        cases hc : (isNoRouteErr e && decide (policy = .skip)) with
        | false => rfl
        | true => rw [hc] at habort; simp at habort
      simp only [swapStepProcess, he, hcond, Bool.false_eq_true, if_false]
    · have hj := hothers j (by simp) hji
      have hirest : i ∈ rest := by
        rcases List.mem_cons.mp hi with h | h
        · exact absurd h.symm hji
        · exact h
      have hothers' : ∀ k ∈ rest, k ≠ i →
          abortOutcome (outcomes k) policy = false :=
        fun k hk => hothers k (by simp [hk])
      cases ho : outcomes j with
      | ok ixs =>
        simp only [swapStepProcess, ho]
        exact ih _ i e hirest he habort hothers'
      | error e' =>
        rw [ho] at hj
        simp only [abortOutcome] at hj
        have hcond : (isNoRouteErr e' && decide (policy = .skip)) = true := by
          cases hc : (isNoRouteErr e' && decide (policy = .skip)) with
          | true => rfl
          | false => rw [hc] at hj; simp at hj
        simp only [swapStepProcess, ho, hcond, if_true]
        exact ih _ i e hirest he habort hothers'

theorem filterMap_succPart_map_i
    (outcomes : Nat → Except FetchError SwapIxs) :
    ∀ order : List Nat,
      (order.filterMap (succPart outcomes)).map Payload.i =
        order.filter (fun i => outcomeOk (outcomes i)) := by
  intro order
  induction order with
  | nil => simp
  | cons i rest ih =>
    cases ho : outcomes i with
    | ok ixs =>
      simp [List.filterMap_cons, List.filter_cons, succPart, outcomeOk, ho, ih]
    | error e =>
      simp [List.filterMap_cons, List.filter_cons, succPart, outcomeOk, ho, ih]

theorem filterMap_skipPart_map_index
    (outcomes : Nat → Except FetchError SwapIxs) :
    ∀ order : List Nat,
      (order.filterMap (skipPart outcomes)).map SkipRec.index =
        order.filter (fun i => !outcomeOk (outcomes i)) := by
  intro order
  induction order with
  | nil => simp
  | cons i rest ih =>
    cases ho : outcomes i with
    | ok ixs =>
      simp [List.filterMap_cons, List.filter_cons, skipPart, outcomeOk, ho, ih]
    | error e =>
      simp [List.filterMap_cons, List.filter_cons, skipPart, outcomeOk, ho, ih]

/-- Swap-instructions fixture for route 0 of the completion-order scenario. -/
def c2s0 : SwapIxs := ⟨none, [], [], some ⟨"P0", [], [0]⟩, [], []⟩

/-- Swap-instructions fixture for route 1 of the completion-order scenario. -/
def c2s1 : SwapIxs := ⟨none, [], [], some ⟨"P1", [], [1]⟩, [], []⟩

/-- Both fetches succeed in this scenario. -/
def c2outcomes : Nat → Except FetchError SwapIxs := fun i =>
  if i = 0 then .ok c2s0 else .ok c2s1

/-- Counterexample to claim C2: with two successful routes whose concurrent
fetches complete in the order route 1 then route 0 (a legal completion order,
a permutation of the route indices), SwapStep keeps the payload list in
completion order [1, 0], which is not ordered by route index, and the
assembler then emits the swap instruction of route 1 before that of
route 0. -/
theorem c2_completion_order_counterexample :
    [1, 0].Perm (List.range 2) ∧
    SwapStep_run c2outcomes .skip [1, 0] =
      .ok ([⟨1, c2s1⟩, ⟨0, c2s0⟩], []) ∧
    ¬ ([1, 0].Pairwise (fun a b : Nat => a ≤ b)) ∧
    assembleRun ⟨[], none, [⟨1, c2s1⟩, ⟨0, c2s0⟩]⟩ =
      [defaultComputeUnitLimitIx, ⟨"P1", [], [1]⟩, ⟨"P0", [], [0]⟩] := by
  refine ⟨by decide, by rfl, by decide, by rfl⟩

/-- Claim C2 amended: SwapStep performs no reassembly into route-index order;
the payload and skip lists follow the completion order of the concurrent
fetches, each record retaining its original route index (payload indices are
the completion order filtered to successes, skip indices the completion order
filtered to failures), so both lists are ordered by route index exactly when
the completions happen in index order. -/
theorem c2_lists_follow_completion_order
    (outcomes : Nat → Except FetchError SwapIxs) (policy : Policy)
    (order : List Nat)
    (h : ∀ i ∈ order, abortOutcome (outcomes i) policy = false)
    (pls : List Payload) (sks : List SkipRec)
    (hrun : swapStepProcess outcomes policy order ([], []) = .ok (pls, sks)) :
    pls.map Payload.i = order.filter (fun i => outcomeOk (outcomes i)) ∧
    sks.map SkipRec.index =
      order.filter (fun i => !outcomeOk (outcomes i)) ∧
    (order.Pairwise (· ≤ ·) →
      (pls.map Payload.i).Pairwise (· ≤ ·) ∧
      (sks.map SkipRec.index).Pairwise (· ≤ ·)) := by
  rw [swapStepProcess_ok_of_no_abort outcomes policy order [] [] h] at hrun
  simp only [List.nil_append, Except.ok.injEq, Prod.mk.injEq] at hrun
  obtain ⟨hp, hs⟩ := hrun
  subst hp hs
  refine ⟨filterMap_succPart_map_i outcomes order,
    filterMap_skipPart_map_index outcomes order, ?_⟩
  intro hsorted
  rw [filterMap_succPart_map_i outcomes order,
    filterMap_skipPart_map_index outcomes order]
  exact ⟨List.Pairwise.sublist (List.filter_sublist order) hsorted,
    List.Pairwise.sublist (List.filter_sublist order) hsorted⟩

/-- Witness for c2_lists_follow_completion_order at completion order [0, 1]:
the payload indices are exactly [0, 1] and they are sorted. -/
theorem c2_lists_follow_completion_order_witness :
    ∃ pls sks,
      swapStepProcess c2outcomes .skip [0, 1] ([], []) = .ok (pls, sks) ∧
      pls.map Payload.i = [0, 1] ∧
      (pls.map Payload.i).Pairwise (fun a b : Nat => a ≤ b) := by
  refine ⟨[⟨0, c2s0⟩, ⟨1, c2s1⟩], [], by rfl, ?_, ?_⟩
  · have h := c2_lists_follow_completion_order c2outcomes .skip [0, 1]
      (by decide) [⟨0, c2s0⟩, ⟨1, c2s1⟩] [] (by rfl)
    rw [h.1]
    decide
  · have h := c2_lists_follow_completion_order c2outcomes .skip [0, 1]
      (by decide) [⟨0, c2s0⟩, ⟨1, c2s1⟩] [] (by rfl)
    exact (h.2.2 (by decide)).1

/-- Claim C4: a per-route failure carrying the no-viable-route code yields a
skip record while the other routes continue under the skip policy; under the
fail policy it aborts the run with that error; and any error without the
no-viable-route code aborts the run whatever the policy is. -/
theorem c4_route_policy (outcomes : Nat → Except FetchError SwapIxs)
    (policy : Policy) (order : List Nat) (i : Nat) (e : FetchError)
    (hi : i ∈ order) (he : outcomes i = .error e) :
    ((policy = .skip ∧ isNoRouteErr e = true ∧
        (∀ j ∈ order, abortOutcome (outcomes j) policy = false) ∧
        (∃ j ∈ order, outcomeOk (outcomes j) = true)) →
      ∃ pls sks, SwapStep_run outcomes policy order = .ok (pls, sks) ∧
        (⟨i, e.message, e.errorCode⟩ : SkipRec) ∈ sks ∧
        (∀ j ixs, j ∈ order → outcomes j = .ok ixs →
          (⟨j, ixs⟩ : Payload) ∈ pls)) ∧
    ((policy = .fail → isNoRouteErr e = true →
        (∀ j ∈ order, j ≠ i → abortOutcome (outcomes j) policy = false) →
        SwapStep_run outcomes policy order = .error (.fetch e))) ∧
    ((isNoRouteErr e = false →
        (∀ j ∈ order, j ≠ i → abortOutcome (outcomes j) policy = false) →
        SwapStep_run outcomes policy order = .error (.fetch e))) := by
  refine ⟨?_, ?_, ?_⟩
  · rintro ⟨hpol, hnr, hnoabort, j, hj, hok⟩
    have hproc := swapStepProcess_ok_of_no_abort outcomes policy order [] []
      hnoabort
    simp only [List.nil_append] at hproc
    refine ⟨order.filterMap (succPart outcomes),
      order.filterMap (skipPart outcomes), ?_, ?_, ?_⟩
    · rw [SwapStep_run, hproc]
      have hlen : (order.filterMap (succPart outcomes)).length ≠ 0 := by
        cases hoj : outcomes j with
        | error e' =>
          rw [hoj] at hok
          simp only [outcomeOk] at hok
          exact absurd hok (by simp)
        | ok ixs =>
          have hmem : (Payload.mk j ixs) ∈ order.filterMap (succPart outcomes) :=
            List.mem_filterMap.mpr ⟨j, hj, by simp only [succPart, hoj]⟩
          intro hzero
          rw [List.length_eq_zero] at hzero
          rw [hzero] at hmem
          exact List.not_mem_nil _ hmem
      simp [hlen]
    · exact List.mem_filterMap.mpr ⟨i, hi, by simp only [skipPart, he]⟩
    · intro j' ixs hj' hoj'
      exact List.mem_filterMap.mpr ⟨j', hj', by simp only [succPart, hoj']⟩
  · intro hpol hnr hothers
    have habort : abortOutcome (outcomes i) policy = true := by
      rw [he]
      simp only [abortOutcome]
      subst hpol
      simp
    have := swapStepProcess_error_precise outcomes policy order ([], []) i e
      hi he habort hothers
    rw [SwapStep_run, this]
  · intro hnr hothers
    have habort : abortOutcome (outcomes i) policy = true := by
      rw [he]
      simp only [abortOutcome, hnr]
      simp
    have := swapStepProcess_error_precise outcomes policy order ([], []) i e
      hi he habort hothers
    rw [SwapStep_run, this]

/-- The no-route error fixture of the policy scenario. -/
def c4err : FetchError := ⟨true, some NO_ROUTE_CODE, "no route"⟩

/-- Outcomes of the policy scenario: route 1 has no viable route, routes 0
and 2 succeed. -/
def c4outcomes : Nat → Except FetchError SwapIxs := fun i =>
  if i = 1 then .error c4err else .ok c2s0

/-- Witness for c4_route_policy: with routes [0, 1, 2] where route 1 fails
with the no-route code, the skip policy returns a result that skips route 1
and keeps routes 0 and 2, while the fail policy rethrows the error. -/
theorem c4_route_policy_witness :
    (∃ pls sks, SwapStep_run c4outcomes .skip [0, 1, 2] = .ok (pls, sks) ∧
      (⟨1, "no route", some NO_ROUTE_CODE⟩ : SkipRec) ∈ sks ∧
      (Payload.mk 0 c2s0) ∈ pls ∧ (Payload.mk 2 c2s0) ∈ pls) ∧
    SwapStep_run c4outcomes .fail [0, 1, 2] = .error (.fetch c4err) := by
  constructor
  · obtain ⟨pls, sks, hrun, hsk, hpl⟩ :=
      (c4_route_policy c4outcomes .skip [0, 1, 2] 1 c4err (by decide) rfl).1
        ⟨rfl, by decide, by decide, 0, by decide, by decide⟩
    exact ⟨pls, sks, hrun, hsk, hpl 0 c2s0 (by decide) rfl,
      hpl 2 c2s0 (by decide) rfl⟩
  · exact (c4_route_policy c4outcomes .fail [0, 1, 2] 1 c4err (by decide)
      rfl).2.1 rfl (by decide) (by decide)

theorem foldl_add_amount (l : List MultiRouteInput) :
    ∀ init : Int, l.foldl (fun sum r => sum + amountOf r) init =
      init + (l.map amountOf).sum := by
  induction l with
  | nil => intro init; simp
  | cons r rest ih =>
    intro init
    simp only [List.foldl_cons, List.map_cons, List.sum_cons]
    rw [ih (init + amountOf r)]
    ring

/-- Claim C7: the wrap planner total is the sum of the resolved base-unit
amounts of the non-sell routes paid in native SOL (the code treats a missing
side tag as buy); a zero total issues no fetch and yields no wrap or cleanup
instruction, a positive total issues exactly one quote-plus-instructions
fetch and reports the total as wrappedLamports. -/
theorem c7_wrap_planner (routes : List MultiRouteInput)
    (fetch : Int → WrapFetchResult) :
    (WrapSolStep_run routes fetch).wrappedLamports =
      ((routes.filter isWrapRoute).map amountOf).sum ∧
    (wrapTotalLamports routes = 0 →
      (WrapSolStep_run routes fetch).wrapFetches = 0 ∧
      (WrapSolStep_run routes fetch).wrapInstrs = [] ∧
      (WrapSolStep_run routes fetch).cleanupInstr = none) ∧
    (wrapTotalLamports routes > 0 →
      (WrapSolStep_run routes fetch).wrapFetches = 1 ∧
      (WrapSolStep_run routes fetch).wrappedLamports =
        wrapTotalLamports routes) := by
  have hsum : wrapTotalLamports routes =
      ((routes.filter isWrapRoute).map amountOf).sum := by
    rw [wrapTotalLamports, foldl_add_amount]
    simp
  refine ⟨?_, ?_, ?_⟩
  · by_cases h : wrapTotalLamports routes > 0
    · simp only [WrapSolStep_run, h, if_true]
      exact hsum
    · simp only [WrapSolStep_run, h, if_false]
      exact hsum
  · intro h0
    have hneg : ¬ wrapTotalLamports routes > 0 := by rw [h0]; decide
    simp [WrapSolStep_run, hneg]
  · intro hpos
    simp [WrapSolStep_run, hpos]

/-- The two-buy-routes fixture of the wrap scenario. -/
def c7routes : List MultiRouteInput :=
  [⟨SOL, "OUTA", some 1000000, none, 100, some Side.buy⟩,
   ⟨SOL, "OUTB", some 2000000, none, 100, some Side.buy⟩]

/-- Witness for c7_wrap_planner: two buy routes funded by SOL with amounts
1000000 and 2000000 give wrappedLamports 3000000 and exactly one fetch. -/
theorem c7_wrap_planner_witness :
    (WrapSolStep_run c7routes (fun _ => ⟨[], none⟩)).wrappedLamports =
      3000000 ∧
    (WrapSolStep_run c7routes (fun _ => ⟨[], none⟩)).wrapFetches = 1 := by
  have h := (c7_wrap_planner c7routes (fun _ => ⟨[], none⟩)).2.2 (by decide)
  exact ⟨h.2.trans (by decide), h.1⟩

/-- The two seen Sets exactly register the keys of the pushed instructions,
and no two pushed instructions share a dedup key. -/
def KeyInv (st : AsmState) : Prop :=
  (∀ k, k ∈ st.seen ↔ ∃ ix ∈ st.ixs, dkey ix = k) ∧
  (st.ixs.map dkey).Nodup

theorem keyInv_empty : KeyInv ⟨[], []⟩ := by
  constructor
  · intro k; simp
  · simp

theorem keyInv_push (st : AsmState) (ix : Ix) (h : KeyInv st) :
    KeyInv (pushIfUnique st ix) := by
  unfold pushIfUnique
  by_cases hc : dkey ix ∈ st.seen
  · simpa [hc] using h
  · simp only [hc, if_false]
    obtain ⟨hseen, hnd⟩ := h
    constructor
    · intro k
      simp only [List.mem_cons]
      constructor
      · rintro (rfl | hk)
        · exact ⟨ix, by simp, rfl⟩
        · obtain ⟨ix', hix', hd⟩ := (hseen k).mp hk
          exact ⟨ix', by simp [hix'], hd⟩
      · rintro ⟨ix', hix', hd⟩
        rcases List.mem_append.mp hix' with hl | hr
        · exact Or.inr ((hseen k).mpr ⟨ix', hl, hd⟩)
        · simp only [List.mem_singleton] at hr
          subst hr
          exact Or.inl hd.symm
    · rw [List.map_append]
      refine List.Nodup.append hnd (by simp) ?_
      intro a ha hb
      simp only [List.map_cons, List.map_nil, List.mem_singleton] at hb
      subst hb
      obtain ⟨ix', hix', hd⟩ := List.mem_map.mp ha
      exact hc ((hseen (dkey ix)).mpr ⟨ix', hix', hd⟩)

theorem push_ixs_mono (st : AsmState) (ix a : Ix) (h : a ∈ st.ixs) :
    a ∈ (pushIfUnique st ix).ixs := by
  unfold pushIfUnique
  by_cases hc : dkey ix ∈ st.seen
  · simpa [hc] using h
  · simp [hc, h]

theorem push_seen_mono (st : AsmState) (ix : Ix) (k : DKey)
    (h : k ∈ st.seen) : k ∈ (pushIfUnique st ix).seen := by
  unfold pushIfUnique
  by_cases hc : dkey ix ∈ st.seen
  · simpa [hc] using h
  · simp [hc, h]

theorem push_seen_self (st : AsmState) (ix : Ix) :
    dkey ix ∈ (pushIfUnique st ix).seen := by
  unfold pushIfUnique
  by_cases hc : dkey ix ∈ st.seen
  · simp [hc]
  · simp [hc]

theorem foldl_push_keyInv (l : List Ix) :
    ∀ st : AsmState, KeyInv st → KeyInv (l.foldl pushIfUnique st) := by
  induction l with
  | nil => intro st h; exact h
  | cons a rest ih => intro st h; exact ih _ (keyInv_push st a h)

theorem foldl_push_ixs_mono (l : List Ix) :
    ∀ (st : AsmState) (a : Ix), a ∈ st.ixs →
      a ∈ (l.foldl pushIfUnique st).ixs := by
  induction l with
  | nil => intro st a h; exact h
  | cons b rest ih => intro st a h; exact ih _ a (push_ixs_mono st b a h)

theorem foldl_push_seen_mono (l : List Ix) :
    ∀ (st : AsmState) (k : DKey), k ∈ st.seen →
      k ∈ (l.foldl pushIfUnique st).seen := by
  induction l with
  | nil => intro st k h; exact h
  | cons b rest ih => intro st k h; exact ih _ k (push_seen_mono st b k h)

theorem foldl_push_seen_of_mem (l : List Ix) :
    ∀ (st : AsmState) (a : Ix), a ∈ l →
      dkey a ∈ (l.foldl pushIfUnique st).seen := by
  induction l with
  | nil => intro st a h; exact absurd h (List.not_mem_nil a)
  | cons b rest ih =>
    intro st a h
    rcases List.mem_cons.mp h with rfl | hr
    · exact foldl_push_seen_mono rest _ (dkey a) (push_seen_self st a)
    · exact ih _ a hr

theorem foldl_push_fresh (l : List Ix) :
    ∀ st : AsmState, (∀ a ∈ l, dkey a ∉ st.seen) → (l.map dkey).Nodup →
      (l.foldl pushIfUnique st).ixs = st.ixs ++ l := by
  induction l with
  | nil => intro st _ _; simp
  | cons b rest ih =>
    intro st hfresh hnd
    have hb : dkey b ∉ st.seen := hfresh b (by simp)
    simp only [List.foldl_cons]
    rw [pushIfUnique, if_neg hb]
    rw [ih ⟨st.ixs ++ [b], dkey b :: st.seen⟩ ?_ (by simp at hnd; exact hnd.2)]
    · simp
    · intro a ha
      simp only [List.mem_cons]
      rintro (hk | hk)
      · simp only [List.map_cons, List.nodup_cons] at hnd
        exact hnd.1 (hk ▸ List.mem_map_of_mem dkey ha)
      · exact hfresh a (by simp [ha]) hk

theorem push_filter_false (p : Ix → Bool) (st : AsmState) (ix : Ix)
    (h : p ix = false) :
    (pushIfUnique st ix).ixs.filter p = st.ixs.filter p := by
  unfold pushIfUnique
  by_cases hc : dkey ix ∈ st.seen
  · simp [hc]
  · simp [hc, List.filter_append, h]

theorem foldl_push_filter_false (p : Ix → Bool) (l : List Ix) :
    ∀ st : AsmState, (∀ a ∈ l, p a = false) →
      (l.foldl pushIfUnique st).ixs.filter p = st.ixs.filter p := by
  induction l with
  | nil => intro st _; rfl
  | cons b rest ih =>
    intro st h
    simp only [List.foldl_cons]
    rw [ih _ (fun a ha => h a (by simp [ha]))]
    exact push_filter_false p st b (h b (by simp))

theorem listStageKeyInv (g : Payload → List Ix) (payloads : List Payload) :
    ∀ st : AsmState, KeyInv st →
      KeyInv (payloads.foldl (fun st x => (g x).foldl pushIfUnique st) st) := by
  induction payloads with
  | nil => intro st h; exact h
  | cons x rest ih =>
    intro st h
    exact ih _ (foldl_push_keyInv (g x) st h)

theorem listStageMem (g : Payload → List Ix) (payloads : List Payload) :
    ∀ (st : AsmState) (a : Ix), a ∈ st.ixs →
      a ∈ (payloads.foldl (fun st x => (g x).foldl pushIfUnique st) st).ixs := by
  induction payloads with
  | nil => intro st a h; exact h
  | cons x rest ih =>
    intro st a h
    exact ih _ a (foldl_push_ixs_mono (g x) st a h)

theorem listStageSeenMono (g : Payload → List Ix) (payloads : List Payload) :
    ∀ (st : AsmState) (k : DKey), k ∈ st.seen →
      k ∈ (payloads.foldl (fun st x => (g x).foldl pushIfUnique st) st).seen := by
  induction payloads with
  | nil => intro st k h; exact h
  | cons x rest ih =>
    intro st k h
    exact ih _ k (foldl_push_seen_mono (g x) st k h)

theorem listStageSeenOfMem (g : Payload → List Ix) (payloads : List Payload)
    (x : Payload) (ix : Ix) (hx : x ∈ payloads) (hix : ix ∈ g x) :
    ∀ st : AsmState,
      dkey ix ∈
        (payloads.foldl (fun st x => (g x).foldl pushIfUnique st) st).seen := by
  intro st
  obtain ⟨s, t, rfl⟩ := List.append_of_mem hx
  rw [List.foldl_append, List.foldl_cons]
  exact listStageSeenMono g t _ (dkey ix)
    (foldl_push_seen_of_mem (g x) _ ix hix)

theorem listStageFilter (g : Payload → List Ix) (p : Ix → Bool)
    (payloads : List Payload)
    (h : ∀ x ∈ payloads, ∀ ix ∈ g x, p ix = false) :
    ∀ st : AsmState,
      (payloads.foldl (fun st x => (g x).foldl pushIfUnique st) st).ixs.filter
          p = st.ixs.filter p := by
  induction payloads with
  | nil => intro st; rfl
  | cons x rest ih =>
    intro st
    simp only [List.foldl_cons]
    rw [ih (fun y hy => h y (by simp [hy]))]
    exact foldl_push_filter_false p (g x) st (h x (by simp))

theorem optStageKeyInv (g : Payload → Option Ix) (payloads : List Payload) :
    ∀ st : AsmState, KeyInv st →
      KeyInv (payloads.foldl
        (fun st x =>
          match g x with
          | some ix => pushIfUnique st ix
          | none => st) st) := by
  induction payloads with
  | nil => intro st h; exact h
  | cons x rest ih =>
    intro st h
    cases hx : g x with
    | some ix => simp only [List.foldl_cons, hx]; exact ih _ (keyInv_push st ix h)
    | none => simp only [List.foldl_cons, hx]; exact ih _ h

theorem optStageMem (g : Payload → Option Ix) (payloads : List Payload) :
    ∀ (st : AsmState) (a : Ix), a ∈ st.ixs →
      a ∈ (payloads.foldl
        (fun st x =>
          match g x with
          | some ix => pushIfUnique st ix
          | none => st) st).ixs := by
  induction payloads with
  | nil => intro st a h; exact h
  | cons x rest ih =>
    intro st a h
    cases hx : g x with
    | some ix =>
      simp only [List.foldl_cons, hx]
      exact ih _ a (push_ixs_mono st ix a h)
    | none => simp only [List.foldl_cons, hx]; exact ih _ a h

theorem optStageFilter (g : Payload → Option Ix) (p : Ix → Bool)
    (payloads : List Payload)
    (h : ∀ x ∈ payloads, ∀ ix, g x = some ix → p ix = false) :
    ∀ st : AsmState,
      (payloads.foldl
        (fun st x =>
          match g x with
          | some ix => pushIfUnique st ix
          | none => st) st).ixs.filter p = st.ixs.filter p := by
  induction payloads with
  | nil => intro st; rfl
  | cons x rest ih =>
    intro st
    simp only [List.foldl_cons]
    cases hx : g x with
    | some ix =>
      rw [ih (fun y hy => h y (by simp [hy]))]
      exact push_filter_false p st ix (h x (by simp) ix hx)
    | none => exact ih (fun y hy => h y (by simp [hy])) st

theorem keyInv_asmAfterWrap (inp : AsmInput) : KeyInv (asmAfterWrap inp) :=
  foldl_push_keyInv inp.wrapInstrs ⟨[], []⟩ keyInv_empty

theorem keyInv_asmAfterLedger (inp : AsmInput) :
    KeyInv (asmAfterLedger inp) := by
  unfold asmAfterLedger
  cases h : tokenLedgerOf inp.swapPayloads with
  | some ix => exact keyInv_push _ ix (keyInv_asmAfterWrap inp)
  | none => exact keyInv_asmAfterWrap inp

theorem keyInv_asmAfterCB (inp : AsmInput) : KeyInv (asmAfterCB inp) := by
  unfold asmAfterCB
  by_cases h : (dedupeCB (collectCB inp.swapPayloads)).length > 0
  · simp only [h, if_true]
    exact foldl_push_keyInv _ _ (keyInv_asmAfterLedger inp)
  · simp only [h, if_false]
    exact keyInv_push _ _ (keyInv_asmAfterLedger inp)

theorem keyInv_asmAfterSetup (inp : AsmInput) : KeyInv (asmAfterSetup inp) :=
  listStageKeyInv (fun x => x.ixs.setupInstructions) inp.swapPayloads
    (asmAfterCB inp) (keyInv_asmAfterCB inp)

theorem keyInv_asmAfterSwap (inp : AsmInput) : KeyInv (asmAfterSwap inp) :=
  optStageKeyInv (fun x => x.ixs.swapInstruction) inp.swapPayloads
    (asmAfterSetup inp) (keyInv_asmAfterSetup inp)

theorem keyInv_asmAfterOther (inp : AsmInput) : KeyInv (asmAfterOther inp) :=
  listStageKeyInv (fun x => x.ixs.otherInstructions) inp.swapPayloads
    (asmAfterSwap inp) (keyInv_asmAfterSwap inp)

theorem keyInv_asmFinal (inp : AsmInput) : KeyInv (asmFinal inp) := by
  unfold asmFinal
  cases h : inp.cleanupInstr with
  | some c => exact keyInv_push _ c (keyInv_asmAfterOther inp)
  | none => exact keyInv_asmAfterOther inp

theorem dkey_of_not_ata (ix : Ix) (h : ix.programId ≠ ATA_PROGRAM) :
    dkey ix = .gen ix.programId (ix.keys.map AccountMeta.pubkey) ix.data := by
  unfold dkey
  rw [if_neg h]

theorem dkey_congr (a b : Ix) (h1 : a.programId = b.programId)
    (h2 : a.keys = b.keys) (h3 : a.data = b.data) : dkey a = dkey b := by
  unfold dkey
  rw [h1, h2, h3]

/-- The flag-less triple (program id, account pubkeys in order, payload)
recorded by the generic branch of pushIfUnique. -/
def genTriple (ix : Ix) : String × List String × List Nat :=
  (ix.programId, ix.keys.map AccountMeta.pubkey, ix.data)

theorem genTriple_eq_of_dkey (a b : Ix) (hb : b.programId ≠ ATA_PROGRAM)
    (h : dkey a = dkey b) : genTriple a = genTriple b := by
  by_cases ha : a.programId = ATA_PROGRAM
  · unfold dkey at h
    rw [if_pos ha, if_neg hb] at h
    exact absurd h (by simp)
  · unfold dkey at h
    rw [if_neg ha, if_neg hb] at h
    simp only [DKey.gen.injEq] at h
    unfold genTriple
    rw [h.1, h.2.1, h.2.2]

theorem dkey_of_genTriple (a b : Ix) (ha : a.programId ≠ ATA_PROGRAM)
    (h : genTriple a = genTriple b) : dkey a = dkey b := by
  unfold genTriple at h
  simp only [Prod.mk.injEq] at h
  have hb : b.programId ≠ ATA_PROGRAM := h.1 ▸ ha
  rw [dkey_of_not_ata a ha, dkey_of_not_ata b hb, h.1, h.2.1, h.2.2]

theorem push_skip_of_seen (st : AsmState) (ix : Ix)
    (h : dkey ix ∈ st.seen) : pushIfUnique st ix = st := by
  unfold pushIfUnique
  rw [if_pos h]

theorem length_le_one_of_const_key (K : DKey) :
    ∀ l : List Ix, (∀ a ∈ l, dkey a = K) → (l.map dkey).Nodup →
      l.length ≤ 1 := by
  intro l
  match l with
  | [] => intro _ _; simp
  | [a] => intro _ _; simp
  | a :: b :: rest =>
    intro hall hnd
    exfalso
    simp only [List.map_cons, List.nodup_cons, List.mem_cons] at hnd
    exact hnd.1 (Or.inl ((hall a (by simp)).trans (hall b (by simp)).symm))

theorem mem_final_of_mem_setup_stage (inp : AsmInput) (a : Ix)
    (h : a ∈ (asmAfterSetup inp).ixs) : a ∈ assembleRun inp := by
  have h1 : a ∈ (asmAfterSwap inp).ixs :=
    optStageMem (fun x => x.ixs.swapInstruction) inp.swapPayloads
      (asmAfterSetup inp) a h
  have h2 : a ∈ (asmAfterOther inp).ixs :=
    listStageMem (fun x => x.ixs.otherInstructions) inp.swapPayloads
      (asmAfterSwap inp) a h1
  unfold assembleRun asmFinal
  cases hc : inp.cleanupInstr with
  | some c => exact push_ixs_mono _ c a h2
  | none => exact h2

/-- Associated-token setup fragment creating the (own, mnt) account with
payload [1]. -/
def cAta1 : Ix :=
  ⟨ATA_PROGRAM,
   [⟨"k0", false, false⟩, ⟨"k1", false, true⟩, ⟨"own", false, false⟩,
    ⟨"mnt", false, false⟩], [1]⟩

/-- Associated-token setup fragment for the same (own, mnt) pair but with a
different payload [2]. -/
def cAta2 : Ix :=
  ⟨ATA_PROGRAM,
   [⟨"k0", false, false⟩, ⟨"k1", false, true⟩, ⟨"own", false, false⟩,
    ⟨"mnt", false, false⟩], [2]⟩

/-- Three resolved payloads: payload 0 carries cAta1, payloads 1 and 2 both
carry the identical fragment cAta2. -/
def c3inp : AsmInput :=
  ⟨[], none,
   [⟨0, ⟨none, [], [cAta1], none, [], []⟩⟩,
    ⟨1, ⟨none, [], [cAta2], none, [], []⟩⟩,
    ⟨2, ⟨none, [], [cAta2], none, [], []⟩⟩]⟩

/-- Counterexample to claim C3: the setup fragments of two distinct
RoutePayloads contain the identical triple cAta2, yet the assembled sequence
contains zero copies of that triple, not exactly one — the associated-token
branch deduplicates by (owner, mint) only, and cAta1 with the same owner and
mint but different payload was pushed first. -/
theorem c3_dedup_exactly_one_counterexample :
    (⟨1, ⟨none, [], [cAta2], none, [], []⟩⟩ : Payload) ∈ c3inp.swapPayloads ∧
    (⟨2, ⟨none, [], [cAta2], none, [], []⟩⟩ : Payload) ∈ c3inp.swapPayloads ∧
    cAta2 ∈ (⟨none, [], [cAta2], none, [], []⟩ : SwapIxs).setupInstructions ∧
    (assembleRun c3inp).countP
      (fun a => decide (a.programId = cAta2.programId ∧
        a.keys = cAta2.keys ∧ a.data = cAta2.data)) = 0 := by
  refine ⟨by decide, by decide, by decide, by decide⟩

/-- Claim C3 amended: the assembled sequence never contains two instructions
with an identical (program identifier, ordered account list, payload) triple;
and a setup fragment whose program is not the associated-token program
appears exactly once up to the dedup key, i.e. exactly one assembled
instruction carries its (program, account pubkeys, payload) triple.  For
associated-token fragments the claim fails: they are deduplicated by
(owner, mint) alone, so an identical triple can be suppressed entirely when
an earlier instruction shares the owner and mint. -/
theorem c3_dedup_no_duplicate_triples (inp : AsmInput) (p : Payload) (ix : Ix)
    (hp : p ∈ inp.swapPayloads) (hix : ix ∈ p.ixs.setupInstructions)
    (hprog : ix.programId ≠ ATA_PROGRAM) :
    List.Pairwise
      (fun a b => ¬(a.programId = b.programId ∧ a.keys = b.keys ∧
        a.data = b.data)) (assembleRun inp) ∧
    (assembleRun inp).countP
      (fun a => decide (genTriple a = genTriple ix)) = 1 := by
  have hinv := keyInv_asmFinal inp
  have hnd : ((assembleRun inp).map dkey).Nodup := hinv.2
  constructor
  · have hpw := List.pairwise_map.mp hnd
    exact hpw.imp (fun h hc => h (dkey_congr _ _ hc.1 hc.2.1 hc.2.2))
  · have hseen4 : dkey ix ∈ (asmAfterSetup inp).seen :=
      listStageSeenOfMem (fun x => x.ixs.setupInstructions) inp.swapPayloads
        p ix hp hix (asmAfterCB inp)
    obtain ⟨ix', hix', hd⟩ :=
      ((keyInv_asmAfterSetup inp).1 (dkey ix)).mp hseen4
    have hmemfin : ix' ∈ assembleRun inp :=
      mem_final_of_mem_setup_stage inp ix' hix'
    have htrip : genTriple ix' = genTriple ix :=
      genTriple_eq_of_dkey ix' ix hprog hd
    have hpos : 0 < (assembleRun inp).countP
        (fun a => decide (genTriple a = genTriple ix)) := by
      rw [List.countP_pos_iff]
      exact ⟨ix', hmemfin, by simp [htrip]⟩
    have hle : (assembleRun inp).countP
        (fun a => decide (genTriple a = genTriple ix)) ≤ 1 := by
      rw [List.countP_eq_length_filter]
      refine length_le_one_of_const_key (dkey ix) _ ?_ ?_
      · intro a ha
        have hpa := List.of_mem_filter ha
        simp only [decide_eq_true_eq] at hpa
        have hap : a.programId = ix.programId := by
          have := congrArg Prod.fst hpa
          simpa [genTriple] using this
        exact dkey_of_genTriple a ix (hap ▸ hprog) hpa
      · exact List.Nodup.sublist
          (List.Sublist.map dkey (List.filter_sublist (assembleRun inp))) hnd
    omega

/-- Witness for c3_dedup_no_duplicate_triples: a single payload with one
generic setup fragment yields exactly one matching assembled instruction. -/
theorem c3_dedup_no_duplicate_triples_witness :
    ((assembleRun ⟨[], none,
        [⟨0, ⟨none, [], [⟨"GenProg", [⟨"acc", false, true⟩], [9]⟩], none, [],
          []⟩⟩]⟩).countP
      (fun a => decide (genTriple a =
        genTriple ⟨"GenProg", [⟨"acc", false, true⟩], [9]⟩))) = 1 := by
  exact (c3_dedup_no_duplicate_triples
    ⟨[], none, [⟨0, ⟨none, [], [⟨"GenProg", [⟨"acc", false, true⟩], [9]⟩],
      none, [], []⟩⟩]⟩
    ⟨0, ⟨none, [], [⟨"GenProg", [⟨"acc", false, true⟩], [9]⟩], none, [], []⟩⟩
    ⟨"GenProg", [⟨"acc", false, true⟩], [9]⟩
    (by decide) (by decide) (by decide)).2

/-- Claim C10: in the instruction assembler, a second instruction with the
same program id, the same ordered account pubkeys and the same payload as an
already-pushed one is dropped, even when the per-account signer or writable
flags differ, because the generic dedup key omits those flags. -/
theorem c10_flags_ignored_in_dedup (st : AsmState) (a b : Ix)
    (hprog : a.programId ≠ ATA_PROGRAM)
    (h1 : a.programId = b.programId)
    (h2 : a.keys.map AccountMeta.pubkey = b.keys.map AccountMeta.pubkey)
    (h3 : a.data = b.data) :
    (pushIfUnique (pushIfUnique st a) b).ixs = (pushIfUnique st a).ixs := by
  have hb : b.programId ≠ ATA_PROGRAM := h1 ▸ hprog
  have hd : dkey b = dkey a := by
    rw [dkey_of_not_ata a hprog, dkey_of_not_ata b hb, h1, h2, h3]
  have hmem : dkey b ∈ (pushIfUnique st a).seen := hd ▸ push_seen_self st a
  rw [push_skip_of_seen (pushIfUnique st a) b hmem]

/-- Witness for c10_flags_ignored_in_dedup: two instructions equal except for
the signer and writable flags collapse to a single pushed instruction. -/
theorem c10_flags_ignored_in_dedup_witness :
    (Ix.mk "GenProg" [⟨"acc", true, false⟩] [7]).keys ≠
      (Ix.mk "GenProg" [⟨"acc", false, true⟩] [7]).keys ∧
    (pushIfUnique (pushIfUnique ⟨[], []⟩ ⟨"GenProg", [⟨"acc", true, false⟩], [7]⟩)
      ⟨"GenProg", [⟨"acc", false, true⟩], [7]⟩).ixs =
      [⟨"GenProg", [⟨"acc", true, false⟩], [7]⟩] := by
  refine ⟨by decide, ?_⟩
  rw [c10_flags_ignored_in_dedup ⟨[], []⟩
    ⟨"GenProg", [⟨"acc", true, false⟩], [7]⟩
    ⟨"GenProg", [⟨"acc", false, true⟩], [7]⟩ (by decide) rfl rfl rfl]
  rfl

/-- Whether an instruction targets the compute-budget program. -/
def isCBIx (ix : Ix) : Bool := decide (ix.programId = CB_PROGRAM)

theorem dedupeCBAux_sub (l : List Ix) :
    ∀ (seen : List (String × List Nat)) (a : Ix),
      a ∈ dedupeCBAux seen l → a ∈ l := by
  induction l with
  | nil => intro seen a h; exact absurd h (List.not_mem_nil a)
  | cons b rest ih =>
    intro seen a h
    unfold dedupeCBAux at h
    by_cases hc : (b.programId, b.data) ∈ seen
    · rw [if_pos hc] at h
      exact List.mem_cons_of_mem b (ih seen a h)
    · rw [if_neg hc] at h
      rcases List.mem_cons.mp h with rfl | h'
      · exact List.mem_cons_self a rest
      · exact List.mem_cons_of_mem b (ih _ a h')

theorem dedupeCBAux_pairwise (l : List Ix) :
    ∀ seen : List (String × List Nat),
      List.Pairwise
        (fun a b : Ix => (a.programId, a.data) ≠ (b.programId, b.data))
        (dedupeCBAux seen l) ∧
      ∀ a ∈ dedupeCBAux seen l, (a.programId, a.data) ∉ seen := by
  induction l with
  | nil =>
    intro seen
    exact ⟨List.Pairwise.nil, by intro a h; exact absurd h (List.not_mem_nil a)⟩
  | cons b rest ih =>
    intro seen
    unfold dedupeCBAux
    by_cases hc : (b.programId, b.data) ∈ seen
    · rw [if_pos hc]
      exact ih seen
    · rw [if_neg hc]
      obtain ⟨hp, hn⟩ := ih ((b.programId, b.data) :: seen)
      refine ⟨List.Pairwise.cons ?_ hp, ?_⟩
      · intro a ha heq
        exact hn a ha (heq ▸ List.mem_cons_self _ _)
      · intro a ha
        rcases List.mem_cons.mp ha with rfl | ha'
        · exact hc
        · intro hmem
          exact hn a ha' (List.mem_cons_of_mem _ hmem)

theorem dedupeCB_ne_nil (l : List Ix) (h : l ≠ []) : dedupeCB l ≠ [] := by
  cases l with
  | nil => exact absurd rfl h
  | cons b rest =>
    unfold dedupeCB dedupeCBAux
    rw [if_neg (List.not_mem_nil _)]
    simp

theorem dkey_fresh_of_cb (st : AsmState) (hinv : KeyInv st)
    (hfilter : st.ixs.filter isCBIx = []) (ix : Ix)
    (hcb : ix.programId = CB_PROGRAM) : dkey ix ∉ st.seen := by
  intro hmem
  obtain ⟨ix', hix', hd⟩ := (hinv.1 (dkey ix)).mp hmem
  have hne : ¬ ix'.programId = CB_PROGRAM := by
    have := List.filter_eq_nil_iff.mp hfilter ix' hix'
    simpa [isCBIx] using this
  have hixa : ix.programId ≠ ATA_PROGRAM := by rw [hcb]; decide
  have htr : genTriple ix' = genTriple ix := genTriple_eq_of_dkey ix' ix hixa hd
  have hpq : ix'.programId = ix.programId := by
    have := congrArg Prod.fst htr
    simpa [genTriple] using this
  exact hne (hpq.trans hcb)

theorem asmAfterCB_ixs (inp : AsmInput)
    (hcb : ∀ x ∈ inp.swapPayloads, ∀ ix ∈ x.ixs.computeBudgetInstructions,
      ix.programId = CB_PROGRAM)
    (hfilter : (asmAfterLedger inp).ixs.filter isCBIx = []) :
    (asmAfterCB inp).ixs = (asmAfterLedger inp).ixs ++
      (if collectCB inp.swapPayloads = [] then [defaultComputeUnitLimitIx]
       else (dedupeCB (collectCB inp.swapPayloads)).take 2) := by
  have hinv := keyInv_asmAfterLedger inp
  by_cases hempty : collectCB inp.swapPayloads = []
  · have hlen : ¬ (dedupeCB (collectCB inp.swapPayloads)).length > 0 := by
      rw [hempty]
      decide
    unfold asmAfterCB
    rw [if_neg hlen, if_pos hempty]
    rw [pushIfUnique, if_neg (dkey_fresh_of_cb _ hinv hfilter
      defaultComputeUnitLimitIx rfl)]
  · have hlen : (dedupeCB (collectCB inp.swapPayloads)).length > 0 :=
      List.length_pos.mpr (dedupeCB_ne_nil _ hempty)
    have hprog : ∀ a ∈ (dedupeCB (collectCB inp.swapPayloads)).take 2,
        a.programId = CB_PROGRAM := by
      intro a ha
      have hmem : a ∈ collectCB inp.swapPayloads :=
        dedupeCBAux_sub _ [] a (List.Sublist.mem ha (List.take_sublist _ _))
      obtain ⟨x, hx, hax⟩ := List.mem_flatMap.mp hmem
      exact hcb x hx a hax
    unfold asmAfterCB
    rw [if_pos hlen, if_neg hempty]
    rw [foldl_push_fresh _ _ ?_ ?_]
    · intro a ha
      exact dkey_fresh_of_cb _ hinv hfilter a (hprog a ha)
    · have hpw : List.Pairwise
          (fun a b : Ix => (a.programId, a.data) ≠ (b.programId, b.data))
          ((dedupeCB (collectCB inp.swapPayloads)).take 2) :=
        List.Pairwise.sublist (List.take_sublist _ _)
          (dedupeCBAux_pairwise (collectCB inp.swapPayloads) []).1
      rw [List.Nodup, List.pairwise_map]
      refine hpw.imp_of_mem ?_
      intro a b ha hb hne hd
      have hanoata : a.programId ≠ ATA_PROGRAM := by
        rw [hprog a ha]; decide
      have hbnoata : b.programId ≠ ATA_PROGRAM := by
        rw [hprog b hb]; decide
      rw [dkey_of_not_ata a hanoata, dkey_of_not_ata b hbnoata] at hd
      simp only [DKey.gen.injEq] at hd
      exact hne (by rw [hd.1, hd.2.2])

/-- Claim C5: compute-budget fragments are deduplicated by
(program id, payload) and capped at two entries; when at least one fragment
exists the assembled compute-budget instructions are exactly the first two
deduplicated fragments (no default is synthesized), and when none exist they
are exactly the single synthesized default unit-limit instruction with the
fixed 1_000_000-unit ceiling.  Hypotheses: compute-budget fragments carry the
compute-budget program id and no other instruction source does (the clean
shape of real provider payloads, where these fragments are the only
compute-budget instructions). -/
theorem c5_compute_budget_cap (inp : AsmInput)
    (hwrap : ∀ ix ∈ inp.wrapInstrs, ix.programId ≠ CB_PROGRAM)
    (hledger : ∀ ix ∈ (tokenLedgerOf inp.swapPayloads).toList,
      ix.programId ≠ CB_PROGRAM)
    (hsetup : ∀ x ∈ inp.swapPayloads, ∀ ix ∈ x.ixs.setupInstructions,
      ix.programId ≠ CB_PROGRAM)
    (hswap : ∀ x ∈ inp.swapPayloads, ∀ ix ∈ (x.ixs.swapInstruction).toList,
      ix.programId ≠ CB_PROGRAM)
    (hother : ∀ x ∈ inp.swapPayloads, ∀ ix ∈ x.ixs.otherInstructions,
      ix.programId ≠ CB_PROGRAM)
    (hclean : ∀ ix ∈ (inp.cleanupInstr).toList, ix.programId ≠ CB_PROGRAM)
    (hcb : ∀ x ∈ inp.swapPayloads, ∀ ix ∈ x.ixs.computeBudgetInstructions,
      ix.programId = CB_PROGRAM) :
    ((assembleRun inp).filter isCBIx).length ≤ 2 ∧
    (collectCB inp.swapPayloads ≠ [] →
      (assembleRun inp).filter isCBIx =
        (dedupeCB (collectCB inp.swapPayloads)).take 2) ∧
    (collectCB inp.swapPayloads = [] →
      (assembleRun inp).filter isCBIx = [defaultComputeUnitLimitIx]) ∧
    List.Pairwise
      (fun a b : Ix => ¬(a.programId = b.programId ∧ a.data = b.data))
      ((assembleRun inp).filter isCBIx) := by
  have hfalse : ∀ (a : Ix), a.programId ≠ CB_PROGRAM → isCBIx a = false := by
    intro a h
    simp only [isCBIx, decide_eq_false_iff_not]
    exact h
  have hf0 : (asmAfterWrap inp).ixs.filter isCBIx = [] := by
    unfold asmAfterWrap
    rw [foldl_push_filter_false isCBIx inp.wrapInstrs ⟨[], []⟩
      (fun a ha => hfalse a (hwrap a ha))]
    rfl
  have hf1 : (asmAfterLedger inp).ixs.filter isCBIx = [] := by
    unfold asmAfterLedger
    cases hl : tokenLedgerOf inp.swapPayloads with
    | some ix =>
      rw [push_filter_false isCBIx _ ix (hfalse ix (hledger ix (by simp [hl])))]
      exact hf0
    | none => exact hf0
  have hcbstage := asmAfterCB_ixs inp hcb hf1
  have hf2 : (asmAfterCB inp).ixs.filter isCBIx =
      (if collectCB inp.swapPayloads = [] then [defaultComputeUnitLimitIx]
       else (dedupeCB (collectCB inp.swapPayloads)).take 2) := by
    rw [hcbstage, List.filter_append, hf1, List.nil_append]
    by_cases hempty : collectCB inp.swapPayloads = []
    · rw [if_pos hempty]
      decide
    · rw [if_neg hempty]
      refine List.filter_eq_self.mpr ?_
      intro a ha
      have hmem : a ∈ collectCB inp.swapPayloads :=
        dedupeCBAux_sub _ [] a (List.Sublist.mem ha (List.take_sublist _ _))
      obtain ⟨x, hx, hax⟩ := List.mem_flatMap.mp hmem
      simp [isCBIx, hcb x hx a hax]
  have hf3 : (asmAfterSetup inp).ixs.filter isCBIx =
      (asmAfterCB inp).ixs.filter isCBIx :=
    listStageFilter (fun x => x.ixs.setupInstructions) isCBIx inp.swapPayloads
      (fun x hx ix hix => hfalse ix (hsetup x hx ix hix)) (asmAfterCB inp)
  have hf4 : (asmAfterSwap inp).ixs.filter isCBIx =
      (asmAfterSetup inp).ixs.filter isCBIx :=
    optStageFilter (fun x => x.ixs.swapInstruction) isCBIx inp.swapPayloads
      (fun x hx ix hix => hfalse ix (hswap x hx ix (by simp [hix])))
      (asmAfterSetup inp)
  have hf5 : (asmAfterOther inp).ixs.filter isCBIx =
      (asmAfterSwap inp).ixs.filter isCBIx :=
    listStageFilter (fun x => x.ixs.otherInstructions) isCBIx inp.swapPayloads
      (fun x hx ix hix => hfalse ix (hother x hx ix hix)) (asmAfterSwap inp)
  have hf6 : (assembleRun inp).filter isCBIx =
      (asmAfterOther inp).ixs.filter isCBIx := by
    unfold assembleRun asmFinal
    cases hc : inp.cleanupInstr with
    | some c =>
      exact push_filter_false isCBIx _ c (hfalse c (hclean c (by simp [hc])))
    | none => rfl
  have hout : (assembleRun inp).filter isCBIx =
      (if collectCB inp.swapPayloads = [] then [defaultComputeUnitLimitIx]
       else (dedupeCB (collectCB inp.swapPayloads)).take 2) := by
    rw [hf6, hf5, hf4, hf3, hf2]
  refine ⟨?_, ?_, ?_, ?_⟩
  · rw [hout]
    by_cases hempty : collectCB inp.swapPayloads = []
    · rw [if_pos hempty]
      decide
    · rw [if_neg hempty]
      simp [List.length_take]
  · intro hne
    rw [hout, if_neg hne]
  · intro heq
    rw [hout, if_pos heq]
  · rw [hout]
    by_cases hempty : collectCB inp.swapPayloads = []
    · rw [if_pos hempty]
      simp
    · rw [if_neg hempty]
      have hpw := List.Pairwise.sublist (List.take_sublist 2 _)
        (dedupeCBAux_pairwise (collectCB inp.swapPayloads) []).1
      exact hpw.imp (fun h hc => h (by rw [hc.1, hc.2]))

/-- Compute-budget fragment fixtures with distinct payloads. -/
def cbIx1 : Ix := ⟨CB_PROGRAM, [], [3, 1]⟩

/-- Second compute-budget fragment fixture. -/
def cbIx2 : Ix := ⟨CB_PROGRAM, [], [2, 64, 66, 15, 0]⟩

/-- Third compute-budget fragment fixture. -/
def cbIx3 : Ix := ⟨CB_PROGRAM, [], [3, 9]⟩

/-- Two payloads carrying four compute-budget fragments with one duplicate
and three distinct (program, payload) keys. -/
def c5inp : AsmInput :=
  ⟨[], none,
   [⟨0, ⟨none, [cbIx1, cbIx2], [], none, [], []⟩⟩,
    ⟨1, ⟨none, [cbIx1, cbIx3], [], none, [], []⟩⟩]⟩

/-- Witness for c5_compute_budget_cap: four fragments across two payloads
(three distinct) assemble to exactly the first two deduplicated
compute-budget instructions and no default. -/
theorem c5_compute_budget_cap_witness :
    (assembleRun c5inp).filter isCBIx = [cbIx1, cbIx2] ∧
    ((assembleRun c5inp).filter isCBIx).length ≤ 2 := by
  have h := c5_compute_budget_cap c5inp
    (by intro ix h; exact absurd h (List.not_mem_nil ix))
    (by intro ix h; exact absurd h (List.not_mem_nil ix))
    (by decide) (by decide) (by decide)
    (by intro ix h; exact absurd h (List.not_mem_nil ix))
    (by decide)
  refine ⟨(h.2.1 (by decide)).trans (by decide), h.1⟩

theorem dedupFirstAux_spec (l : List String) :
    ∀ seen : List String,
      (dedupFirstAux seen l).Nodup ∧
      (∀ a, a ∈ dedupFirstAux seen l ↔ (a ∈ l ∧ a ∉ seen)) := by
  induction l with
  | nil =>
    intro seen
    refine ⟨List.Pairwise.nil, ?_⟩
    intro a
    simp [dedupFirstAux]
  | cons b rest ih =>
    intro seen
    unfold dedupFirstAux
    by_cases hc : b ∈ seen
    · rw [if_pos hc]
      obtain ⟨hnd, hmem⟩ := ih seen
      refine ⟨hnd, ?_⟩
      intro a
      rw [hmem a]
      constructor
      · rintro ⟨ha, hs⟩
        exact ⟨List.mem_cons_of_mem b ha, hs⟩
      · rintro ⟨ha, hs⟩
        rcases List.mem_cons.mp ha with rfl | ha'
        · exact absurd hc hs
        · exact ⟨ha', hs⟩
    · rw [if_neg hc]
      obtain ⟨hnd, hmem⟩ := ih (b :: seen)
      constructor
      · rw [List.nodup_cons]
        refine ⟨?_, hnd⟩
        intro hb
        exact ((hmem b).mp hb).2 (List.mem_cons_self _ _)
      · intro a
        rw [List.mem_cons, hmem a]
        constructor
        · rintro (rfl | ⟨ha, hs⟩)
          · exact ⟨List.mem_cons_self _ _, hc⟩
          · refine ⟨List.mem_cons_of_mem b ha, ?_⟩
            intro hmem'
            exact hs (List.mem_cons_of_mem b hmem')
        · rintro ⟨ha, hs⟩
          by_cases hab : a = b
          · exact Or.inl hab
          · rcases List.mem_cons.mp ha with rfl | ha'
            · exact Or.inl rfl
            · refine Or.inr ⟨ha', ?_⟩
              intro hmem'
              rcases List.mem_cons.mp hmem' with h' | h'
              · exact hab h'
              · exact hs h'

theorem dedupFirst_nodup (l : List String) : (dedupFirst l).Nodup :=
  (dedupFirstAux_spec l []).1

theorem mem_dedupFirst (l : List String) (a : String) :
    a ∈ dedupFirst l ↔ a ∈ l := by
  rw [dedupFirst, (dedupFirstAux_spec l []).2 a]
  simp

theorem mergeAltsAux_keys_nodup (raw : List AltAccount) :
    ∀ seen : List String,
      ((mergeAltsAux seen raw).map AltAccount.key).Nodup ∧
      ∀ a ∈ mergeAltsAux seen raw, a.key ∉ seen := by
  induction raw with
  | nil =>
    intro seen
    refine ⟨by simp [mergeAltsAux], ?_⟩
    intro a h
    exact absurd h (List.not_mem_nil a)
  | cons b rest ih =>
    intro seen
    unfold mergeAltsAux
    by_cases hc : b.key ∈ seen
    · rw [if_pos hc]
      exact ih seen
    · rw [if_neg hc]
      obtain ⟨hnd, hn⟩ := ih (b.key :: seen)
      constructor
      · rw [List.map_cons, List.nodup_cons]
        refine ⟨?_, hnd⟩
        intro hb
        obtain ⟨a, ha, hk⟩ := List.mem_map.mp hb
        exact hn a ha (hk ▸ List.mem_cons_self _ _)
      · intro a ha
        rcases List.mem_cons.mp ha with rfl | ha'
        · exact hc
        · intro hmem
          exact hn a ha' (List.mem_cons_of_mem _ hmem)

theorem mergeAltsAux_of_fresh_nodup (raw : List AltAccount) :
    ∀ seen : List String, (∀ a ∈ raw, a.key ∉ seen) →
      (raw.map AltAccount.key).Nodup → mergeAltsAux seen raw = raw := by
  induction raw with
  | nil => intro seen _ _; rfl
  | cons b rest ih =>
    intro seen hfresh hnd
    unfold mergeAltsAux
    rw [if_neg (hfresh b (by simp))]
    simp only [List.map_cons, List.nodup_cons] at hnd
    rw [ih (b.key :: seen) ?_ hnd.2]
    intro a ha
    simp only [List.mem_cons]
    rintro (hk | hk)
    · exact hnd.1 (hk ▸ List.mem_map_of_mem AltAccount.key ha)
    · exact hfresh a (by simp [ha]) hk

theorem mergeAlts_of_nodup_keys (raw : List AltAccount)
    (hnd : (raw.map AltAccount.key).Nodup) : mergeAlts raw = raw :=
  mergeAltsAux_of_fresh_nodup raw []
    (fun a _ h => absurd h (List.not_mem_nil a.key)) hnd

theorem map_key_filterMap (l : List String) (f : String → Option AltAccount)
    (hres : ∀ a acc, f a = some acc → acc.key = a) :
    (l.filterMap f).map AltAccount.key =
      l.filter (fun a => (f a).isSome) := by
  induction l with
  | nil => rfl
  | cons b rest ih =>
    cases hb : f b with
    | some acc =>
      simp [List.filterMap_cons, List.filter_cons, hb, hres b acc hb, ih]
    | none => simp [List.filterMap_cons, List.filter_cons, hb, ih]

/-- Claim C8 amended: the resolved lookup-table set has pairwise-distinct
table addresses and its cardinality is that of the union of the referenced
addresses restricted to those that resolve; the finalize-stage merge also
never keeps two accounts with one address; but because deduplication already
happens during collection (set semantics over addresses), the finalize-stage
recount sees the deduplicated list: its before and after diagnostics both
equal the resolved deduplicated count and altSaved is always 0 — the raw
pre-dedup address total is never reported. -/
theorem c8_alt_dedup (payloads : List Payload)
    (resolve : String → Option AltAccount)
    (hres : ∀ a acc, resolve a = some acc → acc.key = a) :
    ((ResolveAltStep_run payloads resolve).map AltAccount.key).Nodup ∧
    (∀ raw : List AltAccount,
      ((mergeAlts raw).map AltAccount.key).Nodup) ∧
    (ResolveAltStep_run payloads resolve).length =
      ((payloads.flatMap
          (fun x => x.ixs.addressLookupTableAddresses)).toFinset.filter
        (fun a => (resolve a).isSome = true)).card ∧
    mergeAlts (ResolveAltStep_run payloads resolve) =
      ResolveAltStep_run payloads resolve ∧
    (∀ (instructions : List Ix) (skipped : List SkipRec)
        (executedCount requestedCount : Nat) (wrappedLamports : Int)
        (serialize : List Ix → List AltAccount → Option (List Nat))
        (res : BuildResultM),
      FinalizeTxStep_run instructions (ResolveAltStep_run payloads resolve)
        skipped executedCount requestedCount wrappedLamports serialize =
        .ok res →
      res.diagnostics.altBefore =
          (ResolveAltStep_run payloads resolve).length ∧
        res.diagnostics.altAfter =
          (ResolveAltStep_run payloads resolve).length ∧
        res.diagnostics.altSaved = 0) := by
  have hkeys : (ResolveAltStep_run payloads resolve).map AltAccount.key =
      (collectAltAddrs payloads).filter (fun a => (resolve a).isSome) :=
    map_key_filterMap (collectAltAddrs payloads) resolve hres
  have hnodupkeys :
      ((ResolveAltStep_run payloads resolve).map AltAccount.key).Nodup := by
    rw [hkeys]
    exact (dedupFirst_nodup _).filter _
  have hmergeid : mergeAlts (ResolveAltStep_run payloads resolve) =
      ResolveAltStep_run payloads resolve :=
    mergeAlts_of_nodup_keys _ hnodupkeys
  refine ⟨hnodupkeys, ?_, ?_, hmergeid, ?_⟩
  · intro raw
    exact (mergeAltsAux_keys_nodup raw []).1
  · have hlen : (ResolveAltStep_run payloads resolve).length =
        ((collectAltAddrs payloads).filter
          (fun a => (resolve a).isSome)).length := by
      rw [← hkeys, List.length_map]
    rw [hlen]
    have hnodupfil : ((collectAltAddrs payloads).filter
        (fun a => (resolve a).isSome)).Nodup :=
      (dedupFirst_nodup _).filter _
    rw [← List.toFinset_card_of_nodup hnodupfil]
    congr 1
    refine Finset.ext ?_
    intro a
    rw [List.mem_toFinset, List.mem_filter, Finset.mem_filter,
      List.mem_toFinset, collectAltAddrs, mem_dedupFirst]
  · intro instructions skipped executedCount requestedCount wrappedLamports
      serialize res hrun
    simp only [FinalizeTxStep_run] at hrun
    split at hrun
    · exact absurd hrun (by simp)
    · simp only [Except.ok.injEq] at hrun
      rw [← hrun]
      refine ⟨rfl, ?_, ?_⟩
      · simp only [hmergeid]
      · simp only [hmergeid, Nat.sub_self]

/-- Payload fixtures referencing the overlapping address sets
{x, y} and {y, z}. -/
def c8pay : List Payload :=
  [⟨0, ⟨none, [], [], none, [], ["x", "y"]⟩⟩,
   ⟨1, ⟨none, [], [], none, [], ["y", "z"]⟩⟩]

/-- A resolver that resolves every address to its table. -/
def c8resolve : String → Option AltAccount := fun a => some ⟨a⟩

/-- The altBefore diagnostic of a finalize outcome, when it succeeded. -/
def altBeforeOf (x : Except FinalizeError BuildResultM) : Option Nat :=
  x.toOption.map (fun r => r.diagnostics.altBefore)

/-- Counterexample to claim C8: two payloads referencing {x, y} and {y, z}
collect 4 raw addresses, but the diagnostics report altBefore = 3 — the
count after set-based deduplication at collection time — so the before count
is not the raw total of addresses collected across payloads. -/
theorem c8_alt_diag_counterexample :
    rawAltTotal c8pay = 4 ∧
    altBeforeOf (FinalizeTxStep_run [] (ResolveAltStep_run c8pay c8resolve)
      [] 2 2 0 (fun _ _ => some [])) = some 3 ∧
    (3 : Nat) ≠ 4 := by
  refine ⟨by decide, by decide, by decide⟩

/-- Witness for c8_alt_dedup at the {x, y} / {y, z} fixture: the resolved
set has pairwise-distinct addresses and the finalize merge leaves it
unchanged. -/
theorem c8_alt_dedup_witness :
    ((ResolveAltStep_run c8pay c8resolve).map AltAccount.key).Nodup ∧
    mergeAlts (ResolveAltStep_run c8pay c8resolve) =
      ResolveAltStep_run c8pay c8resolve := by
  have h := c8_alt_dedup c8pay c8resolve
    (fun a acc h => by injection h with h'; rw [← h'])
  exact ⟨h.1, h.2.2.2.1⟩

/-- Claim C1: if serialization fails the finalize step raises the
transaction-too-large error with the sentinel size -1 and the 1232-byte
limit; if the serialized length exceeds the limit it raises the error naming
the observed length and the limit; and any returned build result carries
serialized bytes of length at most the limit, which the diagnostics report
as txSize. -/
theorem c1_finalize_size_ceiling (instructions : List Ix)
    (rawAlts : List AltAccount) (skipped : List SkipRec)
    (executedCount requestedCount : Nat) (wrappedLamports : Int)
    (serialize : List Ix → List AltAccount → Option (List Nat)) :
    (serialize instructions (mergeAlts rawAlts) = none →
      FinalizeTxStep_run instructions rawAlts skipped executedCount
        requestedCount wrappedLamports serialize =
        .error (.txTooLarge (-1) MAX_TX_SIZE)) ∧
    (∀ bytes, serialize instructions (mergeAlts rawAlts) = some bytes →
      bytes.length > MAX_TX_SIZE →
      FinalizeTxStep_run instructions rawAlts skipped executedCount
        requestedCount wrappedLamports serialize =
        .error (.txTooLarge bytes.length MAX_TX_SIZE)) ∧
    (∀ res, FinalizeTxStep_run instructions rawAlts skipped executedCount
        requestedCount wrappedLamports serialize = .ok res →
      ∃ bytes, serialize instructions (mergeAlts rawAlts) = some bytes ∧
        res.serializedBytes = bytes ∧ bytes.length ≤ MAX_TX_SIZE ∧
        res.diagnostics.txSize = (bytes.length : Int)) := by
  refine ⟨?_, ?_, ?_⟩
  · intro hser
    simp only [FinalizeTxStep_run]
    rw [hser]
    simp
  · intro bytes hser hlen
    simp only [FinalizeTxStep_run]
    rw [hser]
    have hgt : ((bytes.length : Int) > (MAX_TX_SIZE : Int)) := by
      exact_mod_cast hlen
    simp only [hgt, true_or, if_pos]
  · intro res hrun
    simp only [FinalizeTxStep_run] at hrun
    cases hser : serialize instructions (mergeAlts rawAlts) with
    | none =>
      rw [hser] at hrun
      simp at hrun
    | some bytes =>
      rw [hser] at hrun
      split at hrun
      · exact absurd hrun (by simp)
      · rename_i hcond
        push_neg at hcond
        refine ⟨bytes, rfl, ?_, ?_, ?_⟩
        · simp only [Except.ok.injEq] at hrun
          rw [← hrun]
          rfl
        · have := hcond.1
          exact_mod_cast this
        · simp only [Except.ok.injEq] at hrun
          rw [← hrun]

/-- Witness for c1_finalize_size_ceiling: a 1300-byte serialization is
rejected with the transaction-too-large error naming 1300 and 1232. -/
theorem c1_finalize_size_ceiling_witness :
    FinalizeTxStep_run [] [] [] 0 0 0
      (fun _ _ => some (List.replicate 1300 0)) =
      .error (.txTooLarge 1300 MAX_TX_SIZE) := by
  have h := (c1_finalize_size_ceiling [] [] [] 0 0 0
    (fun _ _ => some (List.replicate 1300 0))).2.1
    (List.replicate 1300 0) rfl
    (by rw [List.length_replicate]; decide)
  have h2 : (((List.replicate 1300 (0 : Nat)).length : Int)) = 1300 := by
    rw [List.length_replicate]
    norm_num
  rw [h, h2]

end MultiSwap
